import Mathlib

/-!
Verification of the content-extraction and text-normalization pipeline of
`init-scripts/download_covid_news.py` (class `NewsTextExtractor`).

Shallow embedding conventions:
* Strings are Lean `String`s; the scanners work on `List Char` (`String.data`).
* Each `re.sub` call of `_clean_text` is embedded as a dedicated scanner that
  computes the same function as the Python regex substitution on the inputs the
  program uses (left-to-right, non-overlapping, continuing after each match).
  Scanners take a fuel argument, structurally decreasing, so that every
  definition is executable by kernel reduction; each step consumes at least one
  character of the list, so fuel `l.length` never runs out on the actual calls
  (the fuel-zero branch returns `[]` and is unreachable from the wrappers).
* BeautifulSoup documents are opaque beyond element lookup: an element is
  modelled by its `get_text()` result (plus its `content` attribute where the
  code reads it), `find`/`select_one` results by `Option`, with `none` meaning
  the locator yielded no element.
-/

/-- Python `\s` on the ASCII range (also the character class used by
`str.strip`/`str.split` for the texts this program handles). -/
def isWs (c : Char) : Bool :=
  c == ' ' || c == '\t' || c == '\n' || c == '\r' || c == '\x0b' || c == '\x0c'

/-- `stripSeq pat l` returns `some rest` when `pat` is a leading run of `l`,
with `rest` the remainder, and `none` otherwise. -/
def stripSeq : List Char → List Char → Option (List Char)
  | [], l => some l
  | _ :: _, [] => none
  | p :: ps, c :: cs => if p == c then stripSeq ps cs else none

/-- `containsSeq pat l`: does `pat` occur contiguously inside `l`? -/
def containsSeq (pat : List Char) : List Char → Bool
  | [] => (stripSeq pat []).isSome
  | c :: rest => (stripSeq pat (c :: rest)).isSome || containsSeq pat rest

/-- Index of the last `'\n'` of a list, if any. -/
def lastNl? : List Char → Option Nat
  | [] => none
  | c :: rest =>
    match lastNl? rest with
    | some j => some (j + 1)
    | none => if c == '\n' then some 0 else none

/-- Remove trailing whitespace characters (the right half of Python `str.strip`). -/
def dropTrailingWs : List Char → List Char
  | [] => []
  | c :: rest =>
    match dropTrailingWs rest with
    | [] => if isWs c then [] else [c]
    | r => c :: r

/-- Python `str.strip()` on a character list. -/
def pyStripL (l : List Char) : List Char :=
  dropTrailingWs (l.dropWhile isWs)

/-- Python `str.strip()`. -/
def pyStrip (s : String) : String :=
  String.mk (pyStripL s.data)

/-- Helper of `pySplit`: Python `str.split()` with the current word accumulated
in reverse in `acc`. -/
def splitGo : List Char → List Char → List (List Char)
  | [], acc => if acc.isEmpty then [] else [acc.reverse]
  | c :: rest, acc =>
    if isWs c then
      if acc.isEmpty then splitGo rest [] else acc.reverse :: splitGo rest []
    else
      splitGo rest (c :: acc)

/-- Python `str.split()` (split on whitespace runs, no empty items). -/
def pySplit (s : String) : List String :=
  (splitGo s.data []).map String.mk

/-- Python `str.replace(pat, repl)` (all non-overlapping occurrences, left to
right); also `re.sub` for the literal patterns of `_clean_text`. -/
def replaceAllF (pat repl : List Char) : Nat → List Char → List Char
  | 0, _ => []
  | _ + 1, [] => []
  | fuel + 1, c :: rest =>
    match stripSeq pat (c :: rest) with
    | some tail => repl ++ replaceAllF pat repl fuel tail
    | none => c :: replaceAllF pat repl fuel rest

def replaceAll (pat repl : String) (l : List Char) : List Char :=
  replaceAllF pat.data repl.data l.length l

/-- `re.sub(r'\s+', ' ', text)`: every whitespace run collapses to one space. -/
def collapseWsF : Nat → List Char → List Char
  | 0, _ => []
  | _ + 1, [] => []
  | fuel + 1, c :: rest =>
    if isWs c then ' ' :: collapseWsF fuel (rest.dropWhile isWs)
    else c :: collapseWsF fuel rest

def collapseWs (l : List Char) : List Char :=
  collapseWsF l.length l

/-- `re.sub(r'A.*?$', '', text, flags=MULTILINE)` (with or without `DOTALL`:
the lazy `.*?` stops at the first end-of-line in both cases) for a literal
anchor `A`: each occurrence of the anchor is removed together with the rest of
its line; scanning resumes at the newline. The anchors used by `_clean_text`
never begin with `'\n'`, so emitting the newline and resuming after it is the
same as resuming at it. -/
def removeToEolF (anchor : List Char) : Nat → List Char → List Char
  | 0, _ => []
  | _ + 1, [] => []
  | fuel + 1, c :: rest =>
    if (stripSeq anchor (c :: rest)).isSome then
      match (c :: rest).dropWhile (fun d => !(d == '\n')) with
      | [] => []
      | nl :: tail => nl :: removeToEolF anchor fuel tail
    else
      c :: removeToEolF anchor fuel rest

def removeToEol (anchor : String) (l : List Char) : List Char :=
  removeToEolF anchor.data l.length l

/-- Position after the first occurrence of `pat`, if any. -/
def findDropSeq (pat : List Char) : List Char → Option (List Char)
  | [] => stripSeq pat []
  | c :: rest =>
    match stripSeq pat (c :: rest) with
    | some tail => some tail
    | none => findDropSeq pat rest

/-- `re.sub(r'P.*?Q.*?$', '', text, flags=MULTILINE | DOTALL)` for literal
anchors `P`, `Q`: at an occurrence of `P`, the lazy `.*?` runs (across
newlines) to the first following occurrence of `Q`, and the second lazy `.*?$`
to the first end-of-line after it; the whole span is removed. Used for
`'Posted in.*?Tagged.*?$'` and `'iframe.*?src=.*?$'`. -/
def removeAnchorPairF (p1 p2 : List Char) : Nat → List Char → List Char
  | 0, _ => []
  | _ + 1, [] => []
  | fuel + 1, c :: rest =>
    match stripSeq p1 (c :: rest) with
    | some afterP =>
      match findDropSeq p2 afterP with
      | some afterQ =>
        match afterQ.dropWhile (fun d => !(d == '\n')) with
        | [] => []
        | nl :: tail => nl :: removeAnchorPairF p1 p2 fuel tail
      | none => c :: removeAnchorPairF p1 p2 fuel rest
    | none => c :: removeAnchorPairF p1 p2 fuel rest

def removeAnchorPair (p1 p2 : String) (l : List Char) : List Char :=
  removeAnchorPairF p1.data p2.data l.length l

/-- `re.sub(r'Posted on.*?by.*?$', '', text, flags=MULTILINE)`: without
`DOTALL` the `.*?` pieces cannot cross a newline, so a match needs `'by'` after
`'Posted on'` on the same line, and removal runs to that line's end. -/
def removeOnByF : Nat → List Char → List Char
  | 0, _ => []
  | _ + 1, [] => []
  | fuel + 1, c :: rest =>
    match stripSeq ("Posted on".data) (c :: rest) with
    | some afterP =>
      if containsSeq ("by".data) (afterP.takeWhile (fun d => !(d == '\n'))) then
        match afterP.dropWhile (fun d => !(d == '\n')) with
        | [] => []
        | nl :: tail => nl :: removeOnByF fuel tail
      else
        c :: removeOnByF fuel rest
    | none => c :: removeOnByF fuel rest

def removeOnBy (l : List Char) : List Char :=
  removeOnByF l.length l

/-- `re.sub(r'<span lang="[^"]*">', '', text)`: `[^"]*` runs to the first `'"'`,
which must be followed by `'>'` (no backtracking past a `[^"]` class). -/
def removeSpanLangF : Nat → List Char → List Char
  | 0, _ => []
  | _ + 1, [] => []
  | fuel + 1, c :: rest =>
    match stripSeq ("<span lang=\"".data) (c :: rest) with
    | some after =>
      match after.dropWhile (fun d => !(d == '"')) with
      | '"' :: '>' :: tail => removeSpanLangF fuel tail
      | _ => c :: removeSpanLangF fuel rest
    | none => c :: removeSpanLangF fuel rest

def removeSpanLang (l : List Char) : List Char :=
  removeSpanLangF l.length l

/-- `re.sub(r'<p><span lang="[^"]*">\s*</span></p>', '', text)`. -/
def removeEmptyPSpanF : Nat → List Char → List Char
  | 0, _ => []
  | _ + 1, [] => []
  | fuel + 1, c :: rest =>
    match stripSeq ("<p><span lang=\"".data) (c :: rest) with
    | some after =>
      match after.dropWhile (fun d => !(d == '"')) with
      | '"' :: '>' :: t2 =>
        match stripSeq ("</span></p>".data) (t2.dropWhile isWs) with
        | some tail => removeEmptyPSpanF fuel tail
        | none => c :: removeEmptyPSpanF fuel rest
      | _ => c :: removeEmptyPSpanF fuel rest
    | none => c :: removeEmptyPSpanF fuel rest

def removeEmptyPSpan (l : List Char) : List Char :=
  removeEmptyPSpanF l.length l

/-- `re.sub(r'<p>\s*</p>', '', text)`. -/
def removeEmptyPF : Nat → List Char → List Char
  | 0, _ => []
  | _ + 1, [] => []
  | fuel + 1, c :: rest =>
    match stripSeq ("<p>".data) (c :: rest) with
    | some after =>
      match stripSeq ("</p>".data) (after.dropWhile isWs) with
      | some tail => removeEmptyPF fuel tail
      | none => c :: removeEmptyPF fuel rest
    | none => c :: removeEmptyPF fuel rest

def removeEmptyP (l : List Char) : List Char :=
  removeEmptyPF l.length l

/-- `re.sub(r'\n\s*\n', '\n\n', text)`: at a `'\n'`, the greedy `\s*`
backtracks to the last `'\n'` of the whitespace run that follows, the whole
span is replaced by exactly two newlines, and scanning resumes after it. -/
def collapseNNF : Nat → List Char → List Char
  | 0, _ => []
  | _ + 1, [] => []
  | fuel + 1, c :: rest =>
    if c == '\n' then
      match lastNl? (rest.takeWhile isWs) with
      | some j =>
        '\n' :: '\n' :: collapseNNF fuel ((rest.takeWhile isWs).drop (j + 1) ++ rest.dropWhile isWs)
      | none => c :: collapseNNF fuel rest
    else
      c :: collapseNNF fuel rest

def collapseNN (l : List Char) : List Char :=
  collapseNNF l.length l

/-- `re.sub(r'^\s+|\s+$', '', text, flags=MULTILINE)`.  At a whitespace
character on a line start, `^\s+` greedily removes the maximal whitespace run.
Otherwise `\s+$` is tried: it matches to the end of the string, or (greedy with
backtracking, `$` holding just before a `'\n'`) up to the last `'\n'` of the
run provided that is past the start; scanning then resumes at that newline,
whose line-start status is that of the original string.  With no such newline
the character is kept. -/
def trimScanF : Nat → Bool → List Char → List Char
  | 0, _, _ => []
  | _ + 1, _, [] => []
  | fuel + 1, atLS, c :: rest =>
    if isWs c then
      if atLS then
        trimScanF fuel ((c :: rest.takeWhile isWs).getLast? == some '\n') (rest.dropWhile isWs)
      else if (rest.dropWhile isWs).isEmpty then
        []
      else
        match lastNl? (rest.takeWhile isWs) with
        | some j =>
          trimScanF fuel ((c :: rest.takeWhile isWs).get? j == some '\n')
            ((rest.takeWhile isWs).drop j ++ rest.dropWhile isWs)
        | none => c :: trimScanF fuel (c == '\n') rest
    else
      c :: trimScanF fuel false rest

def trimLines (l : List Char) : List Char :=
  trimScanF l.length true l

/-- `NewsTextExtractor._clean_text` (lines 223-293 of the source), rule for
rule in source order: the entity table, whitespace collapsing, the boilerplate
phrase rules, the markup-residue rules, blank-line collapsing, per-line trim,
final strip.  Empty input returns the empty string (`if not text`). -/
def clean_text (text : String) : String :=
  if text = "" then ""
  else
    let t := text.data
    let t := replaceAll "&nbsp;" " " t
    let t := replaceAll "&amp;" "&" t
    let t := replaceAll "&lt;" "<" t
    let t := replaceAll "&gt;" ">" t
    let t := replaceAll "&quot;" "\"" t
    let t := replaceAll "&#8217;" "'" t
    let t := replaceAll "&#8220;" "\"" t
    let t := replaceAll "&#8221;" "\"" t
    let t := replaceAll "&#8230;" "..." t
    let t := collapseWs t
    let t := replaceAll "Share this:" "" t
    let t := replaceAll "Like this:" "" t
    let t := removeAnchorPair "Posted in" "Tagged" t
    let t := removeToEol "Posted in" t
    let t := removeToEol "Tagged" t
    let t := removeToEol "Entradas anteriores" t
    let t := removeToEol "Buscar:" t
    let t := removeToEol "Relevante" t
    let t := removeToEol "Comentarios recientes" t
    let t := removeToEol "Archivos" t
    let t := removeToEol "Meta" t
    let t := removeToEol "Acerca de nosotros" t
    let t := removeToEol "Facebook" t
    let t := removeToEol "YouTube" t
    let t := removeToEol "Twitter" t
    let t := removeToEol "SoundCloud" t
    let t := removeOnBy t
    let t := removeToEol "Posted in" t
    let t := removeToEol "Posted by" t
    let t := removeAnchorPair "iframe" "src=" t
    let t := removeSpanLang t
    let t := replaceAll "</span>" "" t
    let t := removeEmptyPSpan t
    let t := removeEmptyP t
    let t := replaceAll "<b>" "" t
    let t := replaceAll "</b>" "" t
    let t := replaceAll "<p>" "\n" t
    let t := replaceAll "</p>" "" t
    let t := collapseNN t
    let t := trimLines t
    let t := pyStripL t
    String.mk t

/-! ## Field resolvers (`_extract_title`, `_extract_author`) -/

/-- A located markup element, reduced to what the code reads from it: its
`get_text()` result and its `content` attribute (`get('content')`). -/
structure Elem where
  text : String
  content_attr : Option String
deriving DecidableEq

/-- A parsed document, for the resolver functions: the first element each CSS
selector locates, as an association list (`soup.select_one(sel)` is `none`
when `sel` has no entry). -/
def DocSel := List (String × Elem)

/-- `soup.select_one(sel)`: first element located by `sel`, if any. -/
def select_one (doc : DocSel) (sel : String) : Option Elem :=
  match doc.find? (fun p => p.1 == sel) with
  | some p => some p.2
  | none => none

/-- The selector list of `_extract_title` (source lines 36-43). -/
def title_selectors : List String :=
  ["h1.page-title", "h1.entry-title", "h1.post-title", "h1.article-title", "h1", "title"]

/-- The selector list of `_extract_author` (source lines 205-212). -/
def author_selectors : List String :=
  ["span.author.vcard", ".entry-author", ".post-author", ".article-author", ".author",
   "meta[name=\"author\"]"]

/-- Loop of `_extract_title` (lines 45-50): return the stripped text of the
first located element whose stripped text is non-empty, else the fallback. -/
def titleLoop (doc : DocSel) : List String → String
  | [] => "No title found"
  | sel :: rest =>
    match select_one doc sel with
    | some e => if pyStrip e.text = "" then titleLoop doc rest else pyStrip e.text
    | none => titleLoop doc rest

/-- `NewsTextExtractor._extract_title`. -/
def extract_title (doc : DocSel) : String :=
  titleLoop doc title_selectors

/-- Loop of `_extract_author` (lines 214-221): at the first located element,
return its `content` attribute when that is a non-empty string, else its
stripped text (with no non-emptiness check); fallback only when no selector
locates an element. -/
def authorLoop (doc : DocSel) : List String → String
  | [] => "No author found"
  | sel :: rest =>
    match select_one doc sel with
    | some e =>
      match e.content_attr with
      | some c => if c = "" then pyStrip e.text else c
      | none => pyStrip e.text
    | none => authorLoop doc rest

/-- `NewsTextExtractor._extract_author`. -/
def extract_author (doc : DocSel) : String :=
  authorLoop doc author_selectors

/-- The FieldResolver contract as the spec words it (section 4.1): a candidate
matches if it locates an element whose trimmed text is non-empty; the first
match is returned, else the caller-supplied fallback. -/
def resolve_spec (doc : DocSel) (sels : List String) (fallback : String) : String :=
  match sels.filterMap
      (fun sel => (select_one doc sel).bind
        (fun e => if pyStrip e.text = "" then none else some (pyStrip e.text))) with
  | [] => fallback
  | t :: _ => t

/-- First element located by any selector of the list, in priority order. -/
def firstLocated (doc : DocSel) (sels : List String) : Option Elem :=
  (sels.filterMap (fun sel => select_one doc sel)).head?

/-- What `_extract_author` actually computes, phrased through `firstLocated`:
the first located element decides the result by itself — non-empty `content`
attribute if any, else stripped text (with no non-emptiness gate); the
fallback is reached only when no selector locates anything. -/
def authorView (doc : DocSel) (sels : List String) : String :=
  match firstLocated doc sels with
  | none => "No author found"
  | some e =>
    match e.content_attr with
    | some c => if c = "" then pyStrip e.text else c
    | none => pyStrip e.text

/-! ## Archive decomposer (`_extract_articles_from_archive`) -/

/-- One `<article>` container of an archive page, reduced to what the code
reads: the `get_text()` of each of the five fixed per-field `find` targets,
`none` when the locator yields no element. -/
structure ArchiveArticle where
  title : Option String
  author : Option String
  date : Option String
  cats : Option String
  content : Option String
deriving DecidableEq

/-- The pieces appended to `articles_text` for one emitted container with
container index `i` and located title text `t` (source lines 92-121). -/
def articleBlock (i : Nat) (t : String) (a : ArchiveArticle) : List String :=
  ["\n=== ARTÍCULO " ++ toString i ++ ": " ++ pyStrip t ++ " ===\n"]
  ++ (match a.author with
      | some au => ["Autor: " ++ pyStrip au ++ "\n"]
      | none => [])
  ++ (match a.date with
      | some d => ["Fecha: " ++ pyStrip d ++ "\n"]
      | none => [])
  ++ (match a.cats with
      | some ct => ["Categorías: " ++ pyStrip ct ++ "\n"]
      | none => [])
  ++ ["\n--- CONTENIDO ---\n"]
  ++ (match a.content with
      | some co => [pyStrip co]
      | none => [])
  ++ ["\n" ++ String.mk (List.replicate 80 '=') ++ "\n"]

/-- The `for i, article in enumerate(articles, 1)` loop (lines 86-121): `i`
counts every container; a container whose title locator yields no element is
skipped (`continue`). -/
def archiveLoop : Nat → List ArchiveArticle → List String
  | _, [] => []
  | i, a :: rest =>
    (match a.title with
     | none => []
     | some t => articleBlock i t a) ++ archiveLoop (i + 1) rest

/-- `NewsTextExtractor._extract_articles_from_archive` (lines 79-123):
`"\n".join(articles_text)` over the loop's pieces. -/
def extract_articles_from_archive (articles : List ArchiveArticle) : String :=
  String.intercalate "\n" (archiveLoop 1 articles)

/-- The spec's ArticleRecord view of one emitted block: the values the block is
rendered from. -/
structure ArticleRecord where
  index : Nat
  title : String
  author : Option String
  date : Option String
  cats : Option String
  content : Option String
deriving DecidableEq

/-- The record the loop body emits for container `i` with located title `t`. -/
def recordOf (i : Nat) (t : String) (a : ArchiveArticle) : ArticleRecord :=
  { index := i
    title := pyStrip t
    author := a.author.map (fun s => pyStrip s)
    date := a.date.map (fun s => pyStrip s)
    cats := a.cats.map (fun s => pyStrip s)
    content := a.content.map (fun s => pyStrip s) }

/-- Record-level view of `archiveLoop`: same iteration, same skip rule. -/
def archiveRecords : Nat → List ArchiveArticle → List ArticleRecord
  | _, [] => []
  | i, a :: rest =>
    (match a.title with
     | none => []
     | some t => [recordOf i t a]) ++ archiveRecords (i + 1) rest

/-- Rendering an ArticleRecord back into the block pieces of the source. -/
def renderRecord (r : ArticleRecord) : List String :=
  ["\n=== ARTÍCULO " ++ toString r.index ++ ": " ++ r.title ++ " ===\n"]
  ++ (match r.author with
      | some au => ["Autor: " ++ au ++ "\n"]
      | none => [])
  ++ (match r.date with
      | some d => ["Fecha: " ++ d ++ "\n"]
      | none => [])
  ++ (match r.cats with
      | some ct => ["Categorías: " ++ ct ++ "\n"]
      | none => [])
  ++ ["\n--- CONTENIDO ---\n"]
  ++ (match r.content with
      | some co => [co]
      | none => [])
  ++ ["\n" ++ String.mk (List.replicate 80 '=') ++ "\n"]

/-! ## Extraction pipeline (`extract_from_unam_global`) -/

/-- The dictionary returned by `extract_from_unam_global`, with one `Option`
field per key that may be present (`none` = key absent). -/
structure ExtractionResult where
  url : Option String
  content : Option String
  word_count : Option Nat
  error : Option String
  extraction_date : String
deriving DecidableEq

/-- `NewsTextExtractor.extract_from_unam_global` (lines 295-333).  The URL
construction, HTTP fetch, `raise_for_status` and BeautifulSoup parse are
external effects; they are modelled by the `base_url` argument and by
`fetched`, which is `Except.error e` when any of them raises (with `str(e)`
as `e`) and `Except.ok soup` otherwise.  `datetime.now().isoformat()` is the
`now` argument. -/
def extract_from_unam_global (base_url : String)
    (fetched : Except String (List ArchiveArticle)) (now : String) :
    ExtractionResult :=
  match fetched with
  | Except.ok soup =>
    let articles_content := extract_articles_from_archive soup
    let content := if pyStrip articles_content = "" then "" else articles_content
    { url := none
      content := some content
      word_count := some (pySplit content).length
      error := none
      extraction_date := now }
  | Except.error e =>
    { url := some base_url
      content := none
      word_count := none
      error := some e
      extraction_date := now }

/-! ## Lemmas: the per-line trim step never leaves two consecutive newlines -/

lemma trimScanF_not_ws (n : Nat) (b : Bool) (c : Char) (rest : List Char)
    (h : isWs c = false) :
    trimScanF (n + 1) b (c :: rest) = c :: trimScanF n false rest := by
  simp [trimScanF, h]

lemma trimScanF_ws_ls (n : Nat) (c : Char) (rest : List Char) (h : isWs c = true) :
    trimScanF (n + 1) true (c :: rest) =
      trimScanF n ((c :: rest.takeWhile isWs).getLast? == some '\n') (rest.dropWhile isWs) := by
  simp [trimScanF, h]

lemma trimScanF_ws_e (n : Nat) (c : Char) (rest : List Char) (h : isWs c = true)
    (he : (rest.dropWhile isWs).isEmpty = true) :
    trimScanF (n + 1) false (c :: rest) = [] := by
  simp [trimScanF, h, he]

lemma trimScanF_ws_some (n : Nat) (c : Char) (rest : List Char) (j : Nat)
    (h : isWs c = true) (he : (rest.dropWhile isWs).isEmpty = false)
    (hj : lastNl? (rest.takeWhile isWs) = some j) :
    trimScanF (n + 1) false (c :: rest) =
      trimScanF n ((c :: rest.takeWhile isWs).get? j == some '\n')
        ((rest.takeWhile isWs).drop j ++ rest.dropWhile isWs) := by
  simp [trimScanF, h, he, hj]

lemma trimScanF_ws_none (n : Nat) (c : Char) (rest : List Char)
    (h : isWs c = true) (he : (rest.dropWhile isWs).isEmpty = false)
    (hj : lastNl? (rest.takeWhile isWs) = none) :
    trimScanF (n + 1) false (c :: rest) = c :: trimScanF n (c == '\n') rest := by
  simp [trimScanF, h, he, hj]

lemma ne_nl_of_not_ws {c : Char} (h : isWs c = false) : ('\n' == c) = false := by
  cases hb : ('\n' == c)
  · rfl
  · exfalso
    have hc : '\n' = c := eq_of_beq hb
    subst hc
    exact absurd h (by decide)

lemma dropWhile_ws_head (l : List Char) (e : Char) (es : List Char)
    (h : l.dropWhile isWs = e :: es) : isWs e = false := by
  induction l with
  | nil => simp at h
  | cons c r ih =>
    by_cases hc : isWs c = true
    · rw [List.dropWhile_cons, if_pos (by simpa using hc)] at h
      exact ih h
    · have hc' : isWs c = false := by simpa using hc
      rw [List.dropWhile_cons, if_neg (by simp [hc'])] at h
      injection h with h1 _
      rw [← h1]
      exact hc'

lemma trimScanF_head_not_ws (n : Nat) (b : Bool) (l : List Char) (d : Char)
    (t : List Char) (hl : ∀ e es, l = e :: es → isWs e = false)
    (h : trimScanF n b l = d :: t) : isWs d = false := by
  match n, l with
  | 0, l => simp [trimScanF] at h
  | n + 1, [] => simp [trimScanF] at h
  | n + 1, e :: es =>
    have he := hl e es rfl
    rw [trimScanF_not_ws n b e es he] at h
    injection h with h1 _
    rw [← h1]
    exact he

lemma trimScanF_true_head (n : Nat) (l : List Char) (d : Char) (t : List Char)
    (h : trimScanF n true l = d :: t) : isWs d = false := by
  match n, l with
  | 0, l => simp [trimScanF] at h
  | n + 1, [] => simp [trimScanF] at h
  | n + 1, c :: rest =>
    by_cases hc : isWs c = true
    · rw [trimScanF_ws_ls n c rest hc] at h
      exact trimScanF_head_not_ws n _ _ d t (fun e es hes => dropWhile_ws_head rest e es hes) h
    · have hc' : isWs c = false := by simpa using hc
      rw [trimScanF_not_ws n true c rest hc'] at h
      injection h with h1 _
      rw [← h1]
      exact hc'

/-- The output of the `^\s+|\s+$` trim pass never contains two consecutive
newline characters: an emitted `'\n'` makes the next position a line start,
where any following whitespace run is removed whole. -/
theorem trimScanF_no_nn : ∀ (n : Nat) (b : Bool) (l : List Char),
    containsSeq ['\n', '\n'] (trimScanF n b l) = false := by
  intro n
  induction n with
  | zero => intro b l; rfl
  | succ n ih =>
    intro b l
    cases l with
    | nil => rfl
    | cons c rest =>
      by_cases hc : isWs c = true
      · cases b with
        | true =>
          rw [trimScanF_ws_ls n c rest hc]
          exact ih _ _
        | false =>
          by_cases he : (rest.dropWhile isWs).isEmpty = true
          · rw [trimScanF_ws_e n c rest hc he]; rfl
          · have he' : (rest.dropWhile isWs).isEmpty = false := by simpa using he
            cases hj : lastNl? (rest.takeWhile isWs) with
            | some j =>
              rw [trimScanF_ws_some n c rest j hc he' hj]
              exact ih _ _
            | none =>
              rw [trimScanF_ws_none n c rest hc he' hj]
              by_cases hcn : c = '\n'
              · subst hcn
                simp only [containsSeq]
                cases hout : trimScanF n (('\n' : Char) == '\n') rest with
                | nil => rfl
                | cons d t =>
                  have hd : isWs d = false := by
                    have hbt : (('\n' : Char) == '\n') = true := by decide
                    rw [hbt] at hout
                    exact trimScanF_true_head n rest d t hout
                  have hd' : ('\n' == d) = false := ne_nl_of_not_ws hd
                  have htail : containsSeq ['\n', '\n'] (d :: t) = false := by
                    rw [← hout]; exact ih _ _
                  simp [stripSeq, hd', htail]
              · have hcn' : ('\n' == c) = false := by
                  cases hb : ('\n' == c)
                  · rfl
                  · exact absurd (eq_of_beq hb).symm hcn
                have htail : containsSeq ['\n', '\n'] (trimScanF n (c == '\n') rest) = false :=
                  ih _ _
                simp [containsSeq, stripSeq, hcn', htail]
      · have hc' : isWs c = false := by simpa using hc
        rw [trimScanF_not_ws n b c rest hc']
        have hcn' : ('\n' == c) = false := ne_nl_of_not_ws hc'
        have htail : containsSeq ['\n', '\n'] (trimScanF n false rest) = false := ih _ _
        simp [containsSeq, stripSeq, hcn', htail]

/-! ## Lemmas: occurrence is preserved by the final strip -/

lemma containsSeq_nil_pat (l : List Char) : containsSeq [] l = true := by
  cases l with
  | nil => rfl
  | cons c rest => simp [containsSeq, stripSeq]

lemma stripSeq_trans (a : List Char) : ∀ (b c : List Char),
    (stripSeq a b).isSome = true → (stripSeq b c).isSome = true →
    (stripSeq a c).isSome = true := by
  induction a with
  | nil => intro b c _ _; simp [stripSeq]
  | cons x xs ih =>
    intro b c hab hbc
    cases b with
    | nil => simp [stripSeq] at hab
    | cons y ys =>
      cases c with
      | nil => simp [stripSeq] at hbc
      | cons z zs =>
        rw [stripSeq] at hab hbc ⊢
        by_cases hxy : (x == y) = true
        · rw [if_pos hxy] at hab
          by_cases hyz : (y == z) = true
          · rw [if_pos hyz] at hbc
            have hxz : (x == z) = true := by
              have e1 : x = y := eq_of_beq hxy
              have e2 : y = z := eq_of_beq hyz
              rw [e1, e2]; exact beq_self_eq_true z
            rw [if_pos hxz]
            exact ih ys zs hab hbc
          · rw [if_neg (by simpa using hyz)] at hbc
            simp at hbc
        · rw [if_neg (by simpa using hxy)] at hab
          simp at hab

lemma containsSeq_of_pfx (pat : List Char) : ∀ (m l : List Char),
    (stripSeq m l).isSome = true → containsSeq pat m = true →
    containsSeq pat l = true := by
  intro m
  induction m with
  | nil =>
    intro l _ hm
    cases hpat : pat with
    | nil => exact containsSeq_nil_pat l
    | cons p ps => rw [hpat] at hm; simp [containsSeq, stripSeq] at hm
  | cons x ms ih =>
    intro l hpfx hm
    cases l with
    | nil => simp [stripSeq] at hpfx
    | cons y ls =>
      rw [stripSeq] at hpfx
      by_cases hxy : (x == y) = true
      · rw [if_pos hxy] at hpfx
        rw [containsSeq] at hm
        rcases Bool.or_eq_true_iff.mp hm with h1 | h2
        · rw [containsSeq]
          apply Bool.or_eq_true_iff.mpr
          left
          apply stripSeq_trans pat (x :: ms) (y :: ls) h1
          rw [stripSeq, if_pos hxy]
          exact hpfx
        · rw [containsSeq]
          apply Bool.or_eq_true_iff.mpr
          right
          exact ih ls hpfx h2
      · rw [if_neg (by simpa using hxy)] at hpfx
        simp at hpfx

lemma containsSeq_dropWhile (pat : List Char) (p : Char → Bool) :
    ∀ (l : List Char), containsSeq pat (l.dropWhile p) = true →
    containsSeq pat l = true := by
  intro l
  induction l with
  | nil => simp
  | cons c r ih =>
    intro h
    by_cases hc : p c = true
    · rw [List.dropWhile_cons, if_pos hc] at h
      rw [containsSeq]
      apply Bool.or_eq_true_iff.mpr
      right
      exact ih h
    · rw [List.dropWhile_cons, if_neg hc] at h
      exact h

lemma dropTrailingWs_pfx : ∀ (l : List Char),
    (stripSeq (dropTrailingWs l) l).isSome = true := by
  intro l
  induction l with
  | nil => simp [dropTrailingWs, stripSeq]
  | cons c rest ih =>
    rw [dropTrailingWs]
    cases h : dropTrailingWs rest with
    | nil =>
      by_cases hc : isWs c = true
      · simp [hc, stripSeq]
      · simp only [hc]
        rw [if_neg (by simp [hc])]
        simp [stripSeq]
    | cons d t =>
      simp only []
      rw [stripSeq, if_pos (beq_self_eq_true c)]
      rw [h] at ih
      exact ih

lemma containsSeq_pyStripL (pat l : List Char)
    (h : containsSeq pat (pyStripL l) = true) : containsSeq pat l = true := by
  apply containsSeq_dropWhile pat isWs
  apply containsSeq_of_pfx pat (dropTrailingWs (l.dropWhile isWs))
  · exact dropTrailingWs_pfx (l.dropWhile isWs)
  · exact h

lemma stripSeq_two_of_three : ∀ (m : List Char),
    (stripSeq ['\n', '\n', '\n'] m).isSome = true →
    (stripSeq ['\n', '\n'] m).isSome = true := by
  intro m h
  cases m with
  | nil => simp [stripSeq] at h
  | cons d t =>
    cases t with
    | nil =>
      rw [stripSeq] at h
      by_cases hd : (('\n' : Char) == d) = true
      · rw [if_pos hd] at h; simp [stripSeq] at h
      · rw [if_neg (by simpa using hd)] at h; simp at h
    | cons e u =>
      rw [stripSeq] at h ⊢
      by_cases hd : (('\n' : Char) == d) = true
      · rw [if_pos hd] at h ⊢
        rw [stripSeq] at h ⊢
        by_cases hee : (('\n' : Char) == e) = true
        · rw [if_pos hee] at h ⊢
          simp [stripSeq]
        · rw [if_neg (by simpa using hee)] at h; simp at h
      · rw [if_neg (by simpa using hd)] at h; simp at h

lemma containsSeq_two_of_three : ∀ (l : List Char),
    containsSeq ['\n', '\n', '\n'] l = true → containsSeq ['\n', '\n'] l = true := by
  intro l
  induction l with
  | nil => intro h; simp [containsSeq, stripSeq] at h
  | cons c rest ih =>
    intro h
    rw [containsSeq] at h ⊢
    rcases Bool.or_eq_true_iff.mp h with h1 | h2
    · exact Bool.or_eq_true_iff.mpr (Or.inl (stripSeq_two_of_three _ h1))
    · exact Bool.or_eq_true_iff.mpr (Or.inr (ih h2))

lemma no_nn3_strip_trim (n : Nat) (b : Bool) (l : List Char) :
    containsSeq ['\n', '\n', '\n'] (pyStripL (trimScanF n b l)) = false := by
  by_contra hcon
  have h1 : containsSeq ['\n', '\n', '\n'] (pyStripL (trimScanF n b l)) = true := by
    cases hx : containsSeq ['\n', '\n', '\n'] (pyStripL (trimScanF n b l))
    · exact absurd hx hcon
    · rfl
  have h2 := containsSeq_pyStripL _ _ h1
  have h3 := containsSeq_two_of_three _ h2
  rw [trimScanF_no_nn n b l] at h3
  exact Bool.false_ne_true h3

/-! ## Lemmas: archive decomposer -/

lemma articleBlock_render (i : Nat) (t : String) (a : ArchiveArticle) :
    articleBlock i t a = renderRecord (recordOf i t a) := by
  obtain ⟨ti, au, da, ca, co⟩ := a
  cases au <;> cases da <;> cases ca <;> cases co <;>
    simp [articleBlock, renderRecord, recordOf]

lemma archiveLoop_eq_records : ∀ (docs : List ArchiveArticle) (i : Nat),
    archiveLoop i docs = ((archiveRecords i docs).map renderRecord).flatten := by
  intro docs
  induction docs with
  | nil => intro i; rfl
  | cons a rest ih =>
    intro i
    cases h : a.title with
    | none => simp [archiveLoop, archiveRecords, h, ih]
    | some t => simp [archiveLoop, archiveRecords, h, ih, articleBlock_render]

/-- The formatted output is exactly the rendering of the record sequence, so
facts about `archiveRecords` are facts about the emitted blocks. -/
theorem extract_articles_eq_records (docs : List ArchiveArticle) :
    extract_articles_from_archive docs =
      String.intercalate "\n" (((archiveRecords 1 docs).map renderRecord).flatten) := by
  rw [extract_articles_from_archive, archiveLoop_eq_records]

lemma archiveRecords_indices : ∀ (docs : List ArchiveArticle) (i : Nat),
    (archiveRecords i docs).map (fun r => r.index) =
      ((List.enumFrom i docs).filter (fun p => p.2.title.isSome)).map (fun p => p.1) := by
  intro docs
  induction docs with
  | nil => intro i; rfl
  | cons a rest ih =>
    intro i
    cases h : a.title with
    | none => simp [archiveRecords, List.enumFrom, List.filter, h, ih]
    | some t => simp [archiveRecords, List.enumFrom, List.filter, h, ih, recordOf]

lemma archiveRecords_length : ∀ (docs : List ArchiveArticle) (i : Nat),
    (archiveRecords i docs).length = (docs.filter (fun a => a.title.isSome)).length := by
  intro docs
  induction docs with
  | nil => intro i; rfl
  | cons a rest ih =>
    intro i
    cases h : a.title with
    | none => simp [archiveRecords, List.filter, h, ih]
    | some t => simp [archiveRecords, List.filter, h, ih]

lemma archiveRecords_mem : ∀ (docs : List ArchiveArticle) (i : Nat) (r : ArticleRecord),
    r ∈ archiveRecords i docs →
    ∃ a, a ∈ docs ∧ ∃ t j, a.title = some t ∧ r = recordOf j t a := by
  intro docs
  induction docs with
  | nil => intro i r hr; simp [archiveRecords] at hr
  | cons a rest ih =>
    intro i r hr
    cases h : a.title with
    | none =>
      rw [archiveRecords, h] at hr
      simp only [List.nil_append] at hr
      obtain ⟨a', ha', t, j, ht, hrec⟩ := ih (i + 1) r hr
      exact ⟨a', List.mem_cons_of_mem a ha', t, j, ht, hrec⟩
    | some t =>
      rw [archiveRecords, h] at hr
      simp only [List.singleton_append, List.mem_cons] at hr
      rcases hr with hr | hr
      · exact ⟨a, List.mem_cons_self a rest, t, i, h, hr⟩
      · obtain ⟨a', ha', t', j, ht, hrec⟩ := ih (i + 1) r hr
        exact ⟨a', List.mem_cons_of_mem a ha', t', j, ht, hrec⟩

lemma archiveLoop_all_skipped : ∀ (docs : List ArchiveArticle) (i : Nat),
    (∀ a ∈ docs, a.title = none) → archiveLoop i docs = [] := by
  intro docs
  induction docs with
  | nil => intro i _; rfl
  | cons a rest ih =>
    intro i h
    have ha : a.title = none := h a (List.mem_cons_self a rest)
    rw [archiveLoop, ha]
    simp only [List.nil_append]
    exact ih (i + 1) (fun b hb => h b (List.mem_cons_of_mem a hb))

/-! ## Lemmas: field resolvers -/

lemma titleLoop_resolve : ∀ (sels : List String) (doc : DocSel),
    titleLoop doc sels = resolve_spec doc sels "No title found" := by
  intro sels
  induction sels with
  | nil => intro doc; rfl
  | cons sel rest ih =>
    intro doc
    cases hs : select_one doc sel with
    | none => simp [titleLoop, resolve_spec, List.filterMap_cons, hs, ih doc]
    | some e =>
      by_cases ht : pyStrip e.text = ""
      · simp [titleLoop, resolve_spec, List.filterMap_cons, hs, ht, ih doc]
      · simp [titleLoop, resolve_spec, List.filterMap_cons, hs, ht]

lemma authorLoop_view : ∀ (sels : List String) (doc : DocSel),
    authorLoop doc sels = authorView doc sels := by
  intro sels
  induction sels with
  | nil => intro doc; rfl
  | cons sel rest ih =>
    intro doc
    cases hs : select_one doc sel with
    | none => simp [authorLoop, authorView, firstLocated, List.filterMap_cons, hs, ih doc]
    | some e => simp [authorLoop, authorView, firstLocated, List.filterMap_cons, hs]

/-! ## The claims -/

/-- C1 (counterexample): for the 3-container archive in which the 2nd
container lacks a title element, the emitted records are numbered 1 and 3 —
not 1 and 2 as the claim states: `enumerate(articles, 1)` counts every source
container, so a skipped container leaves a gap. -/
theorem C1_counterexample :
    ((archiveRecords 1
        [({ title := some "A", author := none, date := none, cats := none,
            content := some "body1" } : ArchiveArticle),
         { title := none, author := none, date := none, cats := none,
           content := some "body2" },
         { title := some "C", author := none, date := none, cats := none,
           content := some "body3" }]).map (fun r => r.index)) = [1, 3] ∧
    ¬([1, 3] = ([1, 2] : List Nat)) :=
  ⟨rfl, by decide⟩

/-- C1 (amended): the record-boundary markers carry the 1-based position of
the record's source container among all containers in document order, so
skipped containers leave gaps in the numbering. -/
theorem C1_container_indices (docs : List ArchiveArticle) :
    (archiveRecords 1 docs).map (fun r => r.index) =
      ((List.enumFrom 1 docs).filter (fun p => p.2.title.isSome)).map (fun p => p.1) :=
  archiveRecords_indices docs 1

/-- C2: the code runs `re.sub(r'\s+', ' ', ...)` (line 240) before the
boilerplate rules (lines 243-267), so a line-anchored rule such as
`Tagged.*?$` sees a single collapsed line and deletes everything from the
anchor to the end of the text: `"Hello\nTagged covid\nWorld"` cleans to
`"Hello"`, losing the `"World"` line that the spec's mandated order (boilerplate
removal before whitespace collapsing) would keep. -/
theorem C2_whitespace_collapse_precedes_boilerplate :
    clean_text "Hello\nTagged covid\nWorld" = "Hello" := by
  rfl

/-- C3 (counterexample): the content text inserted into a record block is the
raw `get_text().strip()` result, not its TextNormalizer image — an undecoded
`&nbsp;` survives in the record even though `clean_text` would decode it. -/
theorem C3_counterexample :
    (archiveRecords 1
        [({ title := some "T", author := none, date := none, cats := none,
            content := some "Hello&nbsp;World" } : ArchiveArticle)]).map
      (fun r => r.content) = [some "Hello&nbsp;World"] ∧
    clean_text "Hello&nbsp;World" = "Hello World" ∧
    ¬(("Hello&nbsp;World" : String) = "Hello World") :=
  ⟨rfl, rfl, by decide⟩

/-- C3 (amended): every emitted record's content is the source container's raw
extracted content with surrounding whitespace stripped; `_clean_text` is not
applied on this path. -/
theorem C3_content_raw_stripped (i : Nat) (docs : List ArchiveArticle)
    (r : ArticleRecord) (hr : r ∈ archiveRecords i docs) :
    ∃ a, a ∈ docs ∧ ∃ t, a.title = some t ∧
      r.content = a.content.map (fun s => pyStrip s) := by
  obtain ⟨a, ha, t, j, ht, hrec⟩ := archiveRecords_mem docs i r hr
  exact ⟨a, ha, t, ht, by rw [hrec]; rfl⟩

theorem C3_witness :
    ∃ a, a ∈ [({ title := some "T", author := none, date := none, cats := none,
                 content := some " body " } : ArchiveArticle)] ∧ ∃ t, a.title = some t ∧
      (recordOf 1 "T" { title := some "T", author := none, date := none, cats := none,
                        content := some " body " }).content =
        a.content.map (fun s => pyStrip s) :=
  C3_content_raw_stripped 1
    [{ title := some "T", author := none, date := none, cats := none,
       content := some " body " }]
    (recordOf 1 "T" { title := some "T", author := none, date := none, cats := none,
                      content := some " body " })
    (by decide)

/-- C4 (counterexample): a container whose title matched but whose content is
whitespace-only (cleaned content empty) still produces a record — the loop
appends the marker and separator unconditionally once the title locator
matched. -/
theorem C4_counterexample :
    (archiveRecords 1
        [({ title := some "T", author := none, date := none, cats := none,
            content := some "   " } : ArchiveArticle)]).length = 1 ∧
    clean_text "   " = "" ∧ pyStrip "   " = "" :=
  ⟨rfl, rfl, rfl⟩

/-- C4 (amended): whether a container produces a record depends only on its
title locator; content emptiness never suppresses a record. -/
theorem C4_emission_depends_only_on_title (i : Nat) (docs : List ArchiveArticle) :
    (archiveRecords i docs).length = (docs.filter (fun a => a.title.isSome)).length :=
  archiveRecords_length docs i

/-- C5 (counterexample): the normalizer is not idempotent — decoding `&amp;`
inside `"&amp;nbsp;"` manufactures a fresh `"&nbsp;"`, which only a second
pass decodes (to a space that is then stripped away). -/
theorem C5_counterexample :
    ¬(clean_text (clean_text "&amp;nbsp;") = clean_text "&amp;nbsp;") := by
  decide

/-- C5 (amended): `normalize(normalize(x)) = normalize(x)` does not hold for
all `x`: entity decoding can create new entity occurrences. -/
theorem C5_not_idempotent :
    ∃ x : String, ¬(clean_text (clean_text x) = clean_text x) :=
  ⟨"&amp;nbsp;", by decide⟩

/-- C6 (counterexample): a container whose title element exists but contains
only whitespace is emitted with an empty title — the `if not title_elem`
gate only checks that the locator yielded an element, not that its stripped
text is non-empty. -/
theorem C6_counterexample :
    (archiveRecords 1
        [({ title := some " ", author := none, date := none, cats := none,
            content := some "body" } : ArchiveArticle)]).map (fun r => r.title) = [""] ∧
    ¬(("" : String) ≠ "") :=
  ⟨rfl, fun h => h rfl⟩

/-- C6 (amended): a container whose title locator yields no element is skipped
entirely (no record, no placeholder), and every emitted record's title is the
located element's stripped text — which is empty when that text is
whitespace-only. -/
theorem C6_skip_and_title :
    (∀ (i : Nat) (a : ArchiveArticle) (docs : List ArchiveArticle), a.title = none →
        archiveRecords i (a :: docs) = archiveRecords (i + 1) docs) ∧
    (∀ (i : Nat) (docs : List ArchiveArticle) (r : ArticleRecord),
        r ∈ archiveRecords i docs →
        ∃ a, a ∈ docs ∧ ∃ t, a.title = some t ∧ r.title = pyStrip t) := by
  constructor
  · intro i a docs h
    rw [archiveRecords, h]
    exact List.nil_append _
  · intro i docs r hr
    obtain ⟨a, ha, t, j, ht, hrec⟩ := archiveRecords_mem docs i r hr
    exact ⟨a, ha, t, ht, by rw [hrec]; rfl⟩

theorem C6_witness :
    archiveRecords 1
        [({ title := none, author := none, date := none, cats := none,
            content := some "x" } : ArchiveArticle)] = archiveRecords 2 [] ∧
    ∃ a, a ∈ [({ title := some "Hi", author := none, date := none, cats := none,
                 content := none } : ArchiveArticle)] ∧ ∃ t, a.title = some t ∧
      (recordOf 1 "Hi" { title := some "Hi", author := none, date := none, cats := none,
                         content := none }).title = pyStrip t :=
  ⟨C6_skip_and_title.1 1 _ [] rfl,
   C6_skip_and_title.2 1
     [{ title := some "Hi", author := none, date := none, cats := none, content := none }]
     (recordOf 1 "Hi" { title := some "Hi", author := none, date := none, cats := none,
                        content := none })
     (by decide)⟩

/-- C7 (counterexample): the author resolver stops at the first candidate that
locates an element even when that element's trimmed text is empty — here
`.entry-author` holds only whitespace, so the code returns `""` while the
claimed matching rule would skip it and return `"Bob"` from `.author`. -/
theorem C7_counterexample :
    extract_author
        [(".entry-author", ({ text := "  ", content_attr := none } : Elem)),
         (".author", { text := "Bob", content_attr := none })] = "" ∧
    resolve_spec
        [(".entry-author", ({ text := "  ", content_attr := none } : Elem)),
         (".author", { text := "Bob", content_attr := none })]
      author_selectors "No author found" = "Bob" ∧
    ¬(("" : String) = "Bob") :=
  ⟨rfl, rfl, by decide⟩

/-- C7 (amended): the title resolver does follow the claimed rule (first
candidate locating an element with non-empty trimmed text, else the fallback
sentinel), but the author resolver is decided by the first candidate that
locates any element: its non-empty `content` attribute if present, else its
trimmed text even when empty; its fallback is reached only when no candidate
locates an element. -/
theorem C7_resolvers :
    (∀ doc : DocSel, extract_title doc = resolve_spec doc title_selectors "No title found") ∧
    (∀ doc : DocSel, extract_author doc = authorView doc author_selectors) :=
  ⟨fun doc => titleLoop_resolve title_selectors doc,
   fun doc => authorLoop_view author_selectors doc⟩

/-- C8: for every fetch/parse outcome the pipeline returns exactly one variant
of ExtractionResult — the error variant carries the failure's description and
no content keys, the content variant carries content and word count and no
error key — and `extraction_date` is populated in both. -/
theorem C8_result_exclusive (base_url : String)
    (fetched : Except String (List ArchiveArticle)) (now : String) :
    (extract_from_unam_global base_url fetched now).extraction_date = now ∧
    (match fetched with
     | Except.ok _ =>
       (extract_from_unam_global base_url fetched now).error = none ∧
       (extract_from_unam_global base_url fetched now).content.isSome = true ∧
       (extract_from_unam_global base_url fetched now).word_count.isSome = true
     | Except.error e =>
       (extract_from_unam_global base_url fetched now).error = some e ∧
       (extract_from_unam_global base_url fetched now).content = none ∧
       (extract_from_unam_global base_url fetched now).word_count = none) := by
  cases fetched <;> simp [extract_from_unam_global]

/-- C9: the normalizer's output never contains three consecutive newline
characters: the final `^\s+|\s+$` trim pass leaves no two consecutive
newlines at all, and the closing `strip()` only removes characters at the
ends. -/
theorem C9_no_triple_newline (x : String) :
    containsSeq ['\n', '\n', '\n'] (clean_text x).data = false := by
  by_cases hx : x = ""
  · subst hx; rfl
  · simp only [clean_text, if_neg hx]
    exact no_nn3_strip_trim _ true _

/-- C10: an archive document with no containers, or in which every container
is skipped, decomposes to the empty string, and the pipeline returns the
content variant with empty content and word count 0 — not the error
variant. -/
theorem C10_empty_archive (docs : List ArchiveArticle)
    (h : ∀ a ∈ docs, a.title = none) (base_url now : String) :
    extract_articles_from_archive docs = "" ∧
    extract_from_unam_global base_url (Except.ok docs) now =
      { url := none, content := some "", word_count := some 0, error := none,
        extraction_date := now } := by
  have hstr : extract_articles_from_archive docs = "" := by
    rw [extract_articles_from_archive, archiveLoop_all_skipped docs 1 h]
    rfl
  refine ⟨hstr, ?_⟩
  simp only [extract_from_unam_global, hstr]
  rfl

theorem C10_witness :
    extract_articles_from_archive
        [({ title := none, author := none, date := none, cats := none,
            content := some "x" } : ArchiveArticle)] = "" ∧
    extract_from_unam_global "u"
        (Except.ok [({ title := none, author := none, date := none, cats := none,
                       content := some "x" } : ArchiveArticle)]) "d" =
      { url := none, content := some "", word_count := some 0, error := none,
        extraction_date := "d" } :=
  C10_empty_archive
    [{ title := none, author := none, date := none, cats := none, content := some "x" }]
    (by decide) "u" "d"
